import Mathlib

set_option maxRecDepth 8000

/-!
Verification of the fuel_monitor library (src/fuel_monitor/src/lib.rs).

The library stores fuel levels as IEEE binary64 values (f64).  We embed f64
shallowly as an inductive type that distinguishes the cases the code branches
on: NaN, the two infinities, negative zero, and finite values.  Finite values
carry an exact rational magnitude; arithmetic on finite values is exact except
that a result whose magnitude reaches the IEEE binary64 round-to-nearest
overflow threshold (2^1024 - 2^970) becomes a signed infinity, exactly as in
IEEE arithmetic.  Rounding of in-range finite results is not modelled (the
model computes them exactly); the sign of zero results and the special-value
propagation rules follow IEEE 754.  Real f64 finite values have magnitude at
most maxFin = 2^1024 - 2^971; the model type allows larger rationals, so
theorems that need representability take it as a hypothesis, and every
concrete counterexample uses values that are exactly representable doubles.
-/

/-- Model of an IEEE binary64 value: NaN, the infinities, negative zero, or a
finite value with an exact rational magnitude (`fin 0` is positive zero). -/
inductive F64 where
  | nan : F64
  | posInf : F64
  | negInf : F64
  | negZero : F64
  | fin : ℚ → F64
deriving DecidableEq

/-- Largest finite binary64 magnitude, 2^1024 - 2^971, as a literal so that
the kernel can evaluate it (certified by maxFin_eq below). -/
def maxFin : ℚ := 179769313486231570814527423731704356798070567525844996598917476803157260780028538760589558632766878171540458953514382464234321326889464182768467546703537516986049910576551282076245490090389328944075868508455133942304583236903222948165808559332123348274797826204144723168738177180919299881250404026184124858368

/-- Round-to-nearest overflow threshold for binary64: an exact result of
magnitude at least 2^1024 - 2^970 rounds to a signed infinity (certified by
ovfT_eq below). -/
def ovfT : ℚ := 179769313486231580793728971405303415079934132710037826936173778980444968292764750946649017977587207096330286416692887910946555547851940402630657488671505820681908902000708383676273854845817711531764475730270069855571366959622842914819860834936475292719074168444365510704342711559699508093042880177904174497792

/-- The maxFin literal is 2^1024 - 2^971. -/
theorem maxFin_eq : maxFin = 2 ^ 1024 - 2 ^ 971 := by norm_num [maxFin]

/-- The ovfT literal is 2^1024 - 2^970. -/
theorem ovfT_eq : ovfT = 2 ^ 1024 - 2 ^ 970 := by norm_num [ovfT]

/-- Whether the value is NaN (Rust `f64::is_nan`). -/
def F64.isNan : F64 → Bool
  | .nan => true
  | _ => false

/-- Whether the value is an infinity (Rust `f64::is_infinite`). -/
def F64.isInf : F64 → Bool
  | .posInf => true
  | .negInf => true
  | _ => false

/-- Whether the value is finite (a zero or a finite magnitude). -/
def F64.isFinite : F64 → Bool
  | .negZero => true
  | .fin _ => true
  | _ => false

/-- Whether the value is a zero of either sign. -/
def F64.isZero : F64 → Bool
  | .negZero => true
  | .fin q => q = 0
  | _ => false

/-- Exact rational magnitude of a finite value; junk 0 on NaN and infinities. -/
def F64.ratVal : F64 → ℚ
  | .negZero => 0
  | .fin q => q
  | _ => 0

/-- Sign bit of the value (true when negative); NaN gets a junk false. -/
def F64.isNegSign : F64 → Bool
  | .negZero => true
  | .negInf => true
  | .fin q => q < 0
  | _ => false

/-- Whether the value is one a real f64 can hold: finite magnitudes are
bounded by maxFin.  Special values are always representable. -/
def F64.isRepr : F64 → Bool
  | .fin q => |q| ≤ maxFin
  | _ => true

/-- IEEE comparison of two values: none when either is NaN (unordered),
otherwise the order of the extended real line with -0.0 = +0.0. -/
def fcmp : F64 → F64 → Option Ordering
  | .nan, _ => none
  | _, .nan => none
  | .negInf, .negInf => some .eq
  | .negInf, _ => some .lt
  | _, .negInf => some .gt
  | .posInf, .posInf => some .eq
  | .posInf, _ => some .gt
  | _, .posInf => some .lt
  | a, b => some (compare a.ratVal b.ratVal)

/-- IEEE `<` on f64 (false whenever either operand is NaN). -/
def flt (a b : F64) : Bool := fcmp a b = some .lt

/-- IEEE `>` on f64 (false whenever either operand is NaN). -/
def fgt (a b : F64) : Bool := fcmp a b = some .gt

/-- IEEE `==` on f64 (false whenever either operand is NaN; -0.0 == 0.0). -/
def feq (a b : F64) : Bool := fcmp a b = some .eq

/-- Packaging of an exact finite result: a zero keeps the supplied result
sign, a magnitude at or beyond the overflow threshold becomes a signed
infinity, and any other magnitude is kept exactly. -/
def roundFin (q : ℚ) (negSign : Bool) : F64 :=
  if q = 0 then (if negSign then .negZero else .fin 0)
  else if ovfT ≤ q then .posInf
  else if q ≤ -ovfT then .negInf
  else .fin q

/-- IEEE addition: NaN propagates, opposite infinities give NaN, an infinity
absorbs any finite value, and a finite sum is exact (with overflow); an exact
zero sum is -0.0 only when both operands carry the negative sign. -/
def fadd : F64 → F64 → F64
  | .nan, _ => .nan
  | _, .nan => .nan
  | .posInf, .negInf => .nan
  | .negInf, .posInf => .nan
  | .posInf, _ => .posInf
  | _, .posInf => .posInf
  | .negInf, _ => .negInf
  | _, .negInf => .negInf
  | a, b => roundFin (a.ratVal + b.ratVal) (a.isNegSign && b.isNegSign)

/-- IEEE multiplication: NaN propagates, infinity times zero is NaN,
infinity times anything else is a signed infinity, and a finite product is
exact (with overflow); the sign is the xor of the operand signs. -/
def fmul (a b : F64) : F64 :=
  if a.isNan || b.isNan then .nan
  else if a.isInf || b.isInf then
    if a.isZero || b.isZero then .nan
    else if a.isNegSign != b.isNegSign then .negInf else .posInf
  else roundFin (a.ratVal * b.ratVal) (a.isNegSign != b.isNegSign)

/-- IEEE division: NaN propagates, inf/inf and 0/0 give NaN, inf over finite
is a signed infinity, finite over inf is a signed zero, finite over zero is a
signed infinity, and a finite quotient is exact (with overflow); the sign is
the xor of the operand signs. -/
def fdiv (a b : F64) : F64 :=
  if a.isNan || b.isNan then .nan
  else if a.isInf && b.isInf then .nan
  else if a.isInf then (if a.isNegSign != b.isNegSign then .negInf else .posInf)
  else if b.isInf then (if a.isNegSign != b.isNegSign then .negZero else .fin 0)
  else if b.isZero then
    if a.isZero then .nan
    else if a.isNegSign != b.isNegSign then .negInf else .posInf
  else roundFin (a.ratVal / b.ratVal) (a.isNegSign != b.isNegSign)

/-- All the ways the module can fail (lib.rs `enum Error`). -/
inductive Error where
  | NegativeFuelLevel : Error
  | InvalidFuelLevel : Error
deriving DecidableEq

/-- Represents a fuel level in the tank (lib.rs `struct FuelLevel`). -/
structure FuelLevel where
  level_litres : F64
deriving DecidableEq

/-- Rust `==` on FuelLevel: the derived PartialEq compares the f64 fields
with IEEE equality. -/
def FuelLevel.eqRust (a b : FuelLevel) : Bool := feq a.level_litres b.level_litres

/-- Rust `<` on FuelLevel: the derived PartialOrd compares the f64 fields. -/
def FuelLevel.ltRust (a b : FuelLevel) : Bool := flt a.level_litres b.level_litres

/-- Rust `>` on FuelLevel via the derived PartialOrd. -/
def FuelLevel.gtRust (a b : FuelLevel) : Bool := fgt a.level_litres b.level_litres

/-- The manual `Ord for FuelLevel` impl (lib.rs lines 34-44): Less when the
field compares below, Greater when above, Equal otherwise. -/
def FuelLevel.cmp (a b : FuelLevel) : Ordering :=
  if flt a.level_litres b.level_litres then .lt
  else if fgt a.level_litres b.level_litres then .gt
  else .eq

/-- `FuelLevel::zero` (lib.rs): the zero fuel level. -/
def FuelLevel.zero : FuelLevel := ⟨.fin 0⟩

/-- `FuelLevel::with_litres` (lib.rs lines 53-61).  The Rust function aborts
the program on a negative, NaN or infinite argument; the abort is modelled as
`none`, and a normal return as `some`. -/
def FuelLevel.with_litres (litres : F64) : Option FuelLevel :=
  if flt litres (.fin 0) then none
  else if litres.isNan || litres.isInf then none
  else some ⟨litres⟩

/-- `FuelLevel::with_millilitres` (lib.rs lines 64-72): checks `ml < 0.0`
first, then NaN or infinite, and otherwise stores `ml / 1000.0` litres. -/
def FuelLevel.with_millilitres (ml : F64) : Except Error FuelLevel :=
  if flt ml (.fin 0) then .error .NegativeFuelLevel
  else if ml.isNan || ml.isInf then .error .InvalidFuelLevel
  else .ok ⟨fdiv ml (.fin 1000)⟩

/-- `FuelLevel::as_litres` (lib.rs): the stored f64. -/
def FuelLevel.as_litres (f : FuelLevel) : F64 := f.level_litres

/-- `FuelLevel::as_millilitres` (lib.rs): `self.level_litres * 1000.0`. -/
def FuelLevel.as_millilitres (f : FuelLevel) : F64 := fmul f.level_litres (.fin 1000)

/-- `FUEL_LEVEL_MAX` (lib.rs line 7): `FuelLevel::with_litres(10.0)`, which
succeeds and stores 10 litres. -/
def FUEL_LEVEL_MAX : FuelLevel := ⟨.fin 10⟩

/-- `FuelMonitor` (lib.rs): wraps `heapless::HistoryBuf<FuelLevel, 16>`.
The buffer is modelled as the list of stored levels in oldest-to-newest
order (the order `oldest_ordered` iterates); its length never exceeds 16. -/
structure FuelMonitor where
  levels : List FuelLevel
deriving DecidableEq

/-- `FuelMonitor::new` (lib.rs): the empty monitor. -/
def FuelMonitor.new : FuelMonitor := ⟨[]⟩

/-- `FuelMonitor::insert` (lib.rs line 97-99): `HistoryBuf::write` appends
the newest entry, evicting the single oldest entry when the buffer already
holds 16. -/
def FuelMonitor.insert (m : FuelMonitor) (level : FuelLevel) : FuelMonitor :=
  if m.levels.length < 16 then ⟨m.levels ++ [level]⟩
  else ⟨m.levels.tail ++ [level]⟩

/-- `FuelMonitor::min` (lib.rs): `oldest_ordered().min()` with the manual
`Ord` impl; `Iterator::min` keeps the first of equally minimal elements. -/
def FuelMonitor.min (m : FuelMonitor) : Option FuelLevel :=
  m.levels.foldl
    (fun acc x =>
      match acc with
      | none => some x
      | some y => if FuelLevel.cmp x y = .lt then some x else some y)
    none

/-- `FuelMonitor::max` (lib.rs): `oldest_ordered().max()` with the manual
`Ord` impl; `Iterator::max` keeps the last of equally maximal elements. -/
def FuelMonitor.max (m : FuelMonitor) : Option FuelLevel :=
  m.levels.foldl
    (fun acc x =>
      match acc with
      | none => some x
      | some y => if FuelLevel.cmp x y = .lt then some y else some x)
    none

/-- Running sum computed by the loop in `FuelMonitor::mean`: starts at the
literal 0.0 and adds `level.as_litres()` for each entry in oldest order. -/
def sumLitres (ls : List FuelLevel) : F64 :=
  ls.foldl (fun t l => fadd t l.as_litres) (.fin 0)

/-- `FuelMonitor::mean` (lib.rs lines 112-121): `some none` models the Rust
`None` return on an empty buffer, `some (some fl)` a normal `Some` return,
and `none` models the case where the inner `with_litres` call aborts. -/
def FuelMonitor.mean (m : FuelMonitor) : Option (Option FuelLevel) :=
  if m.levels.length = 0 then some none
  else
    match FuelLevel.with_litres
        (fdiv (sumLitres m.levels) (.fin (m.levels.length : ℚ))) with
    | none => none
    | some fl => some (some fl)

/-- The construction invariant of FuelLevel: the stored f64 is never NaN,
never infinite, and never negative in the IEEE order (-0.0 is allowed). -/
def FuelLevelInv (f : FuelLevel) : Prop :=
  f.level_litres.isNan = false ∧ f.level_litres.isInf = false ∧
    flt f.level_litres (.fin 0) = false

instance (f : FuelLevel) : Decidable (FuelLevelInv f) := by
  unfold FuelLevelInv; infer_instance

instance {ε α : Type} [DecidableEq ε] [DecidableEq α] : DecidableEq (Except ε α) :=
  fun a b =>
    match a, b with
    | .error x, .error y =>
      if h : x = y then .isTrue (by rw [h])
      else .isFalse (fun hc => h (by injection hc))
    | .error _, .ok _ => .isFalse (fun hc => by injection hc)
    | .ok _, .error _ => .isFalse (fun hc => by injection hc)
    | .ok x, .ok y =>
      if h : x = y then .isTrue (by rw [h])
      else .isFalse (fun hc => h (by injection hc))

/-! General lemmas about the comparison model. -/

/-- On finite values, IEEE `<` is the rational order of the magnitudes. -/
theorem flt_finite_iff (a b : F64) (ha : a.isFinite = true) (hb : b.isFinite = true) :
    flt a b = true ↔ a.ratVal < b.ratVal := by
  cases a <;> cases b <;>
    simp_all [flt, fcmp, F64.isFinite, F64.ratVal, compare_lt_iff_lt]

/-- On finite values, IEEE `>` is the rational order of the magnitudes. -/
theorem fgt_finite_iff (a b : F64) (ha : a.isFinite = true) (hb : b.isFinite = true) :
    fgt a b = true ↔ b.ratVal < a.ratVal := by
  cases a <;> cases b <;>
    simp_all [fgt, fcmp, F64.isFinite, F64.ratVal, compare_gt_iff_gt]

/-- On finite values, IEEE `==` is rational equality of the magnitudes. -/
theorem feq_finite_iff (a b : F64) (ha : a.isFinite = true) (hb : b.isFinite = true) :
    feq a b = true ↔ a.ratVal = b.ratVal := by
  cases a <;> cases b <;>
    simp_all [feq, fcmp, F64.isFinite, F64.ratVal, compare_eq_iff_eq]

/-- A value satisfying the construction invariant is negative zero or a
finite non-negative magnitude. -/
theorem inv_dichotomy (fl : FuelLevel) (h : FuelLevelInv fl) :
    fl.level_litres = .negZero ∨ ∃ q : ℚ, fl.level_litres = .fin q ∧ 0 ≤ q := by
  obtain ⟨hn, hi, hneg⟩ := h
  cases hfl : fl.level_litres with
  | nan => rw [hfl] at hn; simp [F64.isNan] at hn
  | posInf => rw [hfl] at hi; simp [F64.isInf] at hi
  | negInf => rw [hfl] at hi; simp [F64.isInf] at hi
  | negZero => exact Or.inl rfl
  | fin q =>
    refine Or.inr ⟨q, rfl, ?_⟩
    rw [hfl] at hneg
    by_contra hq
    push_neg at hq
    have hlt : flt (F64.fin q) (F64.fin 0) = true :=
      (flt_finite_iff (F64.fin q) (F64.fin 0) rfl rfl).mpr (by simpa [F64.ratVal] using hq)
    rw [hlt] at hneg
    exact Bool.noConfusion hneg

/-- The monitor obtained by inserting the seventeen readings 1.0 up to 17.0
litres, in increasing order, into a fresh monitor. -/
def monitor17 : FuelMonitor :=
  ((((((((((((((((FuelMonitor.new.insert ⟨.fin 1⟩).insert ⟨.fin 2⟩).insert ⟨.fin 3⟩).insert
    ⟨.fin 4⟩).insert ⟨.fin 5⟩).insert ⟨.fin 6⟩).insert ⟨.fin 7⟩).insert ⟨.fin 8⟩).insert
    ⟨.fin 9⟩).insert ⟨.fin 10⟩).insert ⟨.fin 11⟩).insert ⟨.fin 12⟩).insert ⟨.fin 13⟩).insert
    ⟨.fin 14⟩).insert ⟨.fin 15⟩).insert ⟨.fin 16⟩).insert ⟨.fin 17⟩

/-- Claim C3: inserting 17 readings of 1.0 through 17.0 litres, in increasing
order, into a fresh monitor leaves exactly 16 entries with the oldest (1.0)
evicted, so min() returns the 2.0 level, not the 1.0 level. -/
theorem monitor17_eviction :
    monitor17.levels.length = 16 ∧
    monitor17.levels = [⟨.fin 2⟩, ⟨.fin 3⟩, ⟨.fin 4⟩, ⟨.fin 5⟩, ⟨.fin 6⟩, ⟨.fin 7⟩,
      ⟨.fin 8⟩, ⟨.fin 9⟩, ⟨.fin 10⟩, ⟨.fin 11⟩, ⟨.fin 12⟩, ⟨.fin 13⟩, ⟨.fin 14⟩,
      ⟨.fin 15⟩, ⟨.fin 16⟩, ⟨.fin 17⟩] ∧
    monitor17.min = some ⟨.fin 2⟩ ∧
    monitor17.min ≠ some ⟨.fin 1⟩ := by
  refine ⟨by decide, by decide, by decide, by decide⟩

/-- Claim C7: on a freshly constructed monitor, min and max return the absent
value and mean returns the normal absent answer (some none in the model,
which is the Rust None return, not the abort outcome none). -/
theorem empty_monitor_aggregates_absent :
    FuelMonitor.new.min = none ∧
    FuelMonitor.new.max = none ∧
    FuelMonitor.new.mean = some none := by
  refine ⟨by decide, by decide, by decide⟩

/-- Claim C10: with_litres(-0.0) does not abort and with_millilitres(-0.0)
does not error; both produce a level that compares equal to zero() under the
Rust equality even though the stored f64 is the value -0.0, which is not the
stored value of zero(). -/
theorem negative_zero_constructions :
    FuelLevel.with_litres .negZero = some ⟨.negZero⟩ ∧
    FuelLevel.with_millilitres .negZero = .ok ⟨.negZero⟩ ∧
    FuelLevel.eqRust ⟨.negZero⟩ FuelLevel.zero = true ∧
    F64.negZero ≠ FuelLevel.zero.level_litres := by
  refine ⟨by decide, by with_unfolding_all decide, by decide, by decide⟩

/-- Claim C6: with_litres aborts (returns no value) on every argument that is
negative in the IEEE order, NaN, or infinite. -/
theorem with_litres_aborts_on_invalid (x : F64)
    (h : flt x (.fin 0) = true ∨ x.isNan = true ∨ x.isInf = true) :
    FuelLevel.with_litres x = none := by
  unfold FuelLevel.with_litres
  rcases h with h | h | h
  · simp [h]
  · cases x <;> simp_all [F64.isNan, flt, fcmp]
  · cases x <;> simp_all [F64.isInf, flt, fcmp]

/-- Witness for C6 at the concrete input -1.0. -/
theorem with_litres_aborts_on_invalid_witness :
    FuelLevel.with_litres (.fin (-1)) = none :=
  with_litres_aborts_on_invalid (.fin (-1)) (Or.inl (by decide))

/-- Packaging an exact finite result never yields NaN. -/
theorem roundFin_not_nan (q : ℚ) (s : Bool) : (roundFin q s).isNan = false := by
  unfold roundFin
  split_ifs <;> simp [F64.isNan]

/-- IEEE equality is reflexive away from NaN. -/
theorem feq_self (a : F64) (h : a.isNan = false) : feq a a = true := by
  cases a <;> simp_all [feq, fcmp, F64.isNan, compare_eq_iff_eq]

/-- Multiplying a finite value by the finite constant 1000 never gives NaN. -/
theorem fmul_thousand_not_nan (x : F64) (hf : x.isFinite = true) :
    (fmul x (.fin 1000)).isNan = false := by
  cases x <;>
    simp_all [fmul, F64.isNan, F64.isInf, F64.isZero, F64.isFinite] <;>
    exact roundFin_not_nan _ _

/-- Claim C5: for every non-negative finite x, with_litres(x) succeeds, the
litres accessor returns exactly x (and compares IEEE-equal to x), and the
millilitres accessor computes the IEEE product x * 1000. -/
theorem with_litres_accessor_roundtrip (x : F64)
    (hf : x.isFinite = true) (hnn : flt x (.fin 0) = false) :
    FuelLevel.with_litres x = some ⟨x⟩ ∧
    FuelLevel.as_litres ⟨x⟩ = x ∧
    feq (FuelLevel.as_litres ⟨x⟩) x = true ∧
    FuelLevel.as_millilitres ⟨x⟩ = fmul x (.fin 1000) ∧
    feq (FuelLevel.as_millilitres ⟨x⟩) (fmul x (.fin 1000)) = true := by
  have hnan : x.isNan = false := by cases x <;> simp_all [F64.isNan, F64.isFinite]
  have hinf : x.isInf = false := by cases x <;> simp_all [F64.isInf, F64.isFinite]
  refine ⟨?_, rfl, ?_, rfl, ?_⟩
  · unfold FuelLevel.with_litres
    rw [hnn, hnan, hinf]
    simp
  · exact feq_self x hnan
  · exact feq_self _ (fmul_thousand_not_nan x hf)

/-- Witness for C5 at the concrete input 3.0 litres. -/
theorem with_litres_accessor_roundtrip_witness :
    FuelLevel.with_litres (.fin 3) = some ⟨.fin 3⟩ ∧
    FuelLevel.as_litres ⟨.fin 3⟩ = .fin 3 ∧
    feq (FuelLevel.as_litres ⟨.fin 3⟩) (.fin 3) = true ∧
    FuelLevel.as_millilitres ⟨.fin 3⟩ = fmul (.fin 3) (.fin 1000) ∧
    feq (FuelLevel.as_millilitres ⟨.fin 3⟩) (fmul (.fin 3) (.fin 1000)) = true :=
  with_litres_accessor_roundtrip (.fin 3) (by decide) (by decide)

/-- Evaluation of fadd on two finite magnitudes. -/
theorem fadd_fin_fin (a b : ℚ) :
    fadd (.fin a) (.fin b) = roundFin (a + b) (decide (a < 0) && decide (b < 0)) := rfl

/-- Evaluation of fmul on two finite magnitudes. -/
theorem fmul_fin_fin (a b : ℚ) :
    fmul (.fin a) (.fin b) = roundFin (a * b) (decide (a < 0) != decide (b < 0)) := by
  unfold fmul
  simp [F64.isNan, F64.isInf, F64.isNegSign, F64.ratVal]

/-- Evaluation of fdiv on two finite magnitudes with a nonzero divisor. -/
theorem fdiv_fin_fin (a b : ℚ) (hb : b ≠ 0) :
    fdiv (.fin a) (.fin b) = roundFin (a / b) (decide (a < 0) != decide (b < 0)) := by
  unfold fdiv
  simp [F64.isNan, F64.isInf, F64.isZero, F64.isNegSign, F64.ratVal, hb]

/-- Packaging keeps an in-range nonzero magnitude exactly. -/
theorem roundFin_eq_fin (q : ℚ) (s : Bool)
    (h0 : q ≠ 0) (h1 : q < ovfT) (h2 : -ovfT < q) : roundFin q s = .fin q := by
  unfold roundFin
  rw [if_neg h0, if_neg (not_le.mpr h1), if_neg (not_le.mpr h2)]

/-- IEEE `<` against +0.0 is false exactly on non-negative finite magnitudes. -/
theorem flt_fin_zero_false (q : ℚ) (hq : 0 ≤ q) : flt (.fin q) (.fin 0) = false := by
  rw [Bool.eq_false_iff]
  intro hc
  have := (flt_finite_iff (.fin q) (.fin 0) rfl rfl).mp hc
  simp [F64.ratVal] at this
  exact absurd this (not_lt.mpr hq)

/-- Dividing a representable non-negative finite magnitude by 1000 is exact:
the quotient cannot overflow and keeps the sign bit positive. -/
theorem fdiv_thousand_eval (q : ℚ) (hq : 0 ≤ q) (hrep : |q| ≤ maxFin) :
    fdiv (.fin q) (.fin 1000) = .fin (q / 1000) := by
  rw [fdiv_fin_fin q 1000 (by norm_num)]
  by_cases h0 : q = 0
  · subst h0
    norm_num [roundFin]
  · have hqpos : 0 < q := lt_of_le_of_ne hq (Ne.symm h0)
    have hlt : q / 1000 < ovfT := by
      have h1 : q / 1000 ≤ q := div_le_self hq (by norm_num)
      have h3 : q ≤ maxFin := (abs_le.mp hrep).2
      have h2 : maxFin < ovfT := by decide
      linarith
    have hpos : (0:ℚ) < q / 1000 := by positivity
    have hovp : (0:ℚ) < ovfT := by decide
    exact roundFin_eq_fin _ _ (ne_of_gt hpos) hlt (by linarith)

/-- Claim C1 counterexample: negative infinity satisfies the IEEE test
`ml < 0.0`, which the code checks first, so with_millilitres(-inf) fails with
NegativeFuelLevel and not with InvalidFuelLevel. -/
theorem with_millilitres_neg_inf_misclassified :
    FuelLevel.with_millilitres .negInf = .error .NegativeFuelLevel ∧
    Error.NegativeFuelLevel ≠ Error.InvalidFuelLevel :=
  ⟨by decide, by decide⟩

/-- Claim C1 (amended): every x below zero in the IEEE order, negative
infinity included, fails with NegativeFuelLevel; NaN and positive infinity
fail with InvalidFuelLevel; every other representable x succeeds with a level
of x/1000 litres. -/
theorem with_millilitres_classification :
    (∀ q : ℚ, q < 0 → FuelLevel.with_millilitres (.fin q) = .error .NegativeFuelLevel) ∧
    FuelLevel.with_millilitres .negInf = .error .NegativeFuelLevel ∧
    FuelLevel.with_millilitres .nan = .error .InvalidFuelLevel ∧
    FuelLevel.with_millilitres .posInf = .error .InvalidFuelLevel ∧
    FuelLevel.with_millilitres .negZero = .ok ⟨.negZero⟩ ∧
    (∀ q : ℚ, 0 ≤ q → |q| ≤ maxFin →
      FuelLevel.with_millilitres (.fin q) = .ok ⟨.fin (q / 1000)⟩) := by
  refine ⟨?_, by decide, by decide, by decide, by with_unfolding_all decide, ?_⟩
  · intro q hq
    unfold FuelLevel.with_millilitres
    have : flt (.fin q) (.fin 0) = true :=
      (flt_finite_iff (.fin q) (.fin 0) rfl rfl).mpr (by simpa [F64.ratVal] using hq)
    rw [this]
    simp
  · intro q hq hrep
    unfold FuelLevel.with_millilitres
    rw [flt_fin_zero_false q hq, fdiv_thousand_eval q hq hrep]
    simp [F64.isNan, F64.isInf]

/-- Witness for C1 (amended) at the inputs -1.0 and 2.0 millilitres. -/
theorem with_millilitres_classification_witness :
    FuelLevel.with_millilitres (.fin (-1)) = .error .NegativeFuelLevel ∧
    FuelLevel.with_millilitres (.fin 2) = .ok ⟨.fin (2 / 1000)⟩ :=
  ⟨with_millilitres_classification.1 (-1) (by norm_num),
   with_millilitres_classification.2.2.2.2.2 2 (by norm_num) (by norm_num [maxFin])⟩

/-- The exactly representable double 2^1020, as a literal the kernel can
evaluate (certified by twoPow1020_eq below). -/
def twoPow1020 : ℚ := 11235582092889474423308157442431404585112356118389416079589380072358292237843810195794279832650471001320007117491962084853674360550901038905802964414967132773610493339054092829768888725077880882465817684505312860552384417646403930092119569408801702322709406917786643639996702871154982269052209770601514008576

/-- The twoPow1020 literal is 2^1020. -/
theorem twoPow1020_eq : twoPow1020 = 2 ^ 1020 := by norm_num [twoPow1020]

/-- Claim C4 counterexample: x = 2^1020 is a non-negative finite
representable double, but x * 1000 overflows to positive infinity, so
with_millilitres(x * 1000) fails with InvalidFuelLevel instead of succeeding,
even though with_litres(x) succeeds. -/
theorem round_trip_overflow_failure :
    (F64.fin twoPow1020).isFinite = true ∧
    flt (.fin twoPow1020) (.fin 0) = false ∧
    (F64.fin twoPow1020).isRepr = true ∧
    fmul (.fin twoPow1020) (.fin 1000) = .posInf ∧
    FuelLevel.with_millilitres (fmul (.fin twoPow1020) (.fin 1000)) =
      .error .InvalidFuelLevel ∧
    FuelLevel.with_litres (.fin twoPow1020) = some ⟨.fin twoPow1020⟩ := by
  refine ⟨by decide, by decide, ?_, by with_unfolding_all decide,
    by with_unfolding_all decide, by decide⟩
  show (|twoPow1020| ≤ maxFin : Bool) = true
  rw [decide_eq_true_iff, abs_le]
  constructor
  · rw [twoPow1020_eq, maxFin_eq]; norm_num
  · rw [twoPow1020_eq, maxFin_eq]; norm_num

/-- Exact representability of a rational as a finite IEEE binary64 value:
zero, or an odd significand of fewer than 54 bits scaled by a power of two
with exponent at least -1074, the whole within the finite range.  When the
exact product of two doubles satisfies this predicate, the real IEEE
multiplication commits no rounding error, so on such products the
exact-arithmetic model coincides with the program. -/
def repr53 (q : ℚ) : Prop :=
  q = 0 ∨ ∃ m : ℤ, ∃ e : ℤ, Odd m ∧ |m| < 2 ^ 53 ∧ -1074 ≤ e ∧ |q| ≤ maxFin ∧
    q = (m : ℚ) * (2 : ℚ) ^ e

/-- The exact product 5000000000000021 * 1000 is not representable as a
binary64 value: its odd part 625000000000002625 needs 60 significand bits.
On this input the real IEEE multiplication rounds (to 5000000000000021504,
whose quotient by 1000 then rounds to the neighbouring double
5000000000000022), so the exactness hypothesis of the amended round-trip
theorem below is necessary and excludes this input. -/
theorem prod_5000000000000021_not_repr53 :
    ¬ repr53 ((5000000000000021 : ℚ) * 1000) := by
  intro h
  rcases h with h0 | ⟨m, e, hodd, hm, he, hb, heq⟩
  · norm_num at h0
  · have hA : ((5000000000000021 : ℚ) * 1000) =
        ((625000000000002625 : ℤ) : ℚ) * (2 : ℚ) ^ (3 : ℤ) := by norm_num
    rw [hA] at heq
    by_cases hcase : 4 ≤ e
    · have h8 : ((2 : ℚ) ^ (3 : ℤ)) ≠ 0 := zpow_ne_zero 3 (by norm_num)
      have hsplit : (2 : ℚ) ^ e = (2 : ℚ) ^ (3 : ℤ) * (2 : ℚ) ^ (e - 3) := by
        rw [← zpow_add₀ (by norm_num : (2 : ℚ) ≠ 0)]
        congr 1
        ring
      rw [hsplit] at heq
      have hre : (m : ℚ) * ((2 : ℚ) ^ (3 : ℤ) * (2 : ℚ) ^ (e - 3)) =
          ((m : ℚ) * (2 : ℚ) ^ (e - 3)) * (2 : ℚ) ^ (3 : ℤ) := by ring
      rw [hre] at heq
      have heq2 : ((625000000000002625 : ℤ) : ℚ) = (m : ℚ) * (2 : ℚ) ^ (e - 3) :=
        mul_right_cancel₀ h8 heq
      have ht : (e - 3) = (((e - 3).toNat : ℕ) : ℤ) :=
        (Int.toNat_of_nonneg (by linarith)).symm
      have ht1 : 1 ≤ (e - 3).toNat := by omega
      rw [ht, zpow_natCast] at heq2
      have hZ : (625000000000002625 : ℤ) = m * 2 ^ (e - 3).toNat := by
        exact_mod_cast heq2
      have hdvd : (2 : ℤ) ∣ 625000000000002625 := by
        rw [hZ]
        exact Dvd.dvd.mul_left (dvd_pow_self 2 (by omega)) m
      norm_num at hdvd
    · push_neg at hcase
      have h2e : ((2 : ℚ) ^ e) ≠ 0 := zpow_ne_zero e (by norm_num)
      have hsplit : (2 : ℚ) ^ (3 : ℤ) = (2 : ℚ) ^ e * (2 : ℚ) ^ (3 - e) := by
        rw [← zpow_add₀ (by norm_num : (2 : ℚ) ≠ 0)]
        congr 1
        ring
      rw [hsplit] at heq
      have hre : ((625000000000002625 : ℤ) : ℚ) * ((2 : ℚ) ^ e * (2 : ℚ) ^ (3 - e)) =
          (((625000000000002625 : ℤ) : ℚ) * (2 : ℚ) ^ (3 - e)) * (2 : ℚ) ^ e := by ring
      rw [hre] at heq
      have heq2 : ((625000000000002625 : ℤ) : ℚ) * (2 : ℚ) ^ (3 - e) = (m : ℚ) :=
        mul_right_cancel₀ h2e heq
      have ht : (3 - e) = (((3 - e).toNat : ℕ) : ℤ) :=
        (Int.toNat_of_nonneg (by linarith)).symm
      rw [ht, zpow_natCast] at heq2
      have hZ : (625000000000002625 : ℤ) * 2 ^ (3 - e).toNat = m := by
        exact_mod_cast heq2
      have hpow1 : (1 : ℤ) ≤ 2 ^ (3 - e).toNat := by
        simpa using Int.lt_iff_add_one_le.mp
          (pow_pos (show (0 : ℤ) < 2 by norm_num) ((3 - e).toNat))
      have hle : (625000000000002625 : ℤ) ≤ |m| := by
        rw [← hZ, abs_mul, abs_of_nonneg (show (0 : ℤ) ≤ 625000000000002625 by norm_num),
          abs_of_nonneg (show (0 : ℤ) ≤ 2 ^ (3 - e).toNat by positivity)]
        exact le_mul_of_one_le_right (by norm_num) hpow1
      have hbig : (2 : ℤ) ^ 53 < 625000000000002625 := by norm_num
      linarith

/-- Claim C4 (amended): for every non-negative finite x whose exact product
x * 1000 is representable as a binary64 value (the IEEE multiplication is
exact, which also rules out overflow), with_millilitres(x * 1000) succeeds
with the very same stored magnitude produced by with_litres(x), which also
succeeds.  The representability hypothesis delimits the inputs on which the
exact-arithmetic model agrees with IEEE round-to-nearest: an exact product
divides back exactly by 1000, while an inexact product such as
5000000000000021 * 1000 (see prod_5000000000000021_not_repr53) makes the
real program store a neighbouring double different from x. -/
theorem round_trip_of_exact_product (x : F64)
    (hf : x.isFinite = true) (hnn : flt x (.fin 0) = false)
    (hexact : repr53 (x.ratVal * 1000)) :
    FuelLevel.with_millilitres (fmul x (.fin 1000)) = .ok ⟨x⟩ ∧
    FuelLevel.with_litres x = some ⟨x⟩ := by
  cases x with
  | nan => simp [F64.isFinite] at hf
  | posInf => simp [F64.isFinite] at hf
  | negInf => simp [F64.isFinite] at hf
  | negZero => exact ⟨by with_unfolding_all decide, by decide⟩
  | fin q =>
    simp only [F64.ratVal] at hexact
    have hq : 0 ≤ q := by
      by_contra h
      push_neg at h
      rw [(flt_finite_iff (.fin q) (.fin 0) rfl rfl).mpr
        (by simpa [F64.ratVal] using h)] at hnn
      exact Bool.noConfusion hnn
    by_cases h0 : q = 0
    · subst h0
      exact ⟨by with_unfolding_all decide, by decide⟩
    · have hqpos : 0 < q := lt_of_le_of_ne hq (Ne.symm h0)
      have h1 : decide (q < 0) = false := decide_eq_false (not_lt.mpr hq)
      have h2 : decide ((1000 : ℚ) < 0) = false := by norm_num
      have hqk : q * 1000 ≠ 0 := ne_of_gt (by positivity)
      have hovp : (0 : ℚ) < ovfT := by decide
      have hlt : q * 1000 < ovfT := by
        rcases hexact with hz | ⟨m, e, _, _, _, hb, _⟩
        · exact absurd hz hqk
        · have hup : q * 1000 ≤ maxFin := (abs_le.mp hb).2
          have hmo : maxFin < ovfT := by decide
          linarith
      have hmul : fmul (.fin q) (.fin 1000) = .fin (q * 1000) := by
        rw [fmul_fin_fin, h1, h2]
        have hp : (0 : ℚ) < q * 1000 := by positivity
        exact roundFin_eq_fin _ _ hqk hlt (by linarith)
      have hdiv : fdiv (.fin (q * 1000)) (.fin 1000) = .fin q := by
        rw [fdiv_fin_fin _ _ (by norm_num)]
        have he : q * 1000 / 1000 = q := by field_simp
        have h3 : decide (q * 1000 < 0) = false :=
          decide_eq_false (not_lt.mpr (by positivity))
        rw [he, h3, h2]
        have hqlt : q < ovfT := by
          have : q ≤ q * 1000 := le_mul_of_one_le_right hq (by norm_num)
          linarith
        exact roundFin_eq_fin _ _ h0 hqlt (by linarith)
      refine ⟨?_, ?_⟩
      · rw [hmul]
        unfold FuelLevel.with_millilitres
        rw [flt_fin_zero_false _ (by positivity), hdiv]
        simp [F64.isNan, F64.isInf]
      · unfold FuelLevel.with_litres
        rw [flt_fin_zero_false q hq]
        simp [F64.isNan, F64.isInf]

/-- Witness for C4 (amended) at the concrete input 2.0 litres, whose exact
product 2000 = 125 * 2^4 is representable. -/
theorem round_trip_of_exact_product_witness :
    FuelLevel.with_millilitres (fmul (.fin 2) (.fin 1000)) = .ok ⟨.fin 2⟩ ∧
    FuelLevel.with_litres (.fin 2) = some ⟨.fin 2⟩ :=
  round_trip_of_exact_product (.fin 2) (by decide) (by decide)
    (Or.inr ⟨125, 4, ⟨62, by norm_num⟩, by norm_num, by norm_num,
      by norm_num [F64.ratVal, maxFin], by norm_num [F64.ratVal]⟩)

/-- A value satisfying the construction invariant is finite. -/
theorem inv_finite (fl : FuelLevel) (h : FuelLevelInv fl) :
    fl.level_litres.isFinite = true := by
  rcases inv_dichotomy fl h with h1 | ⟨q, h1, _⟩ <;> rw [h1] <;> rfl

/-- Claim C9: every public construction path — zero(), a successful
with_litres, and a successful with_millilitres on a representable input —
produces a stored f64 that is never NaN, never infinite, and never negative
in the IEEE order. -/
theorem construction_paths_invariant :
    FuelLevelInv FuelLevel.zero ∧
    (∀ x : F64, ∀ fl : FuelLevel,
      FuelLevel.with_litres x = some fl → FuelLevelInv fl) ∧
    (∀ x : F64, ∀ fl : FuelLevel, x.isRepr = true →
      FuelLevel.with_millilitres x = .ok fl → FuelLevelInv fl) := by
  refine ⟨by decide, ?_, ?_⟩
  · intro x fl h
    unfold FuelLevel.with_litres at h
    by_cases c1 : flt x (.fin 0) = true
    · simp [c1] at h
    · simp only [Bool.not_eq_true] at c1
      by_cases c2 : (x.isNan || x.isInf) = true
      · simp [c1, c2] at h
      · simp only [Bool.not_eq_true, Bool.or_eq_false_iff] at c2
        simp [c1, c2.1, c2.2] at h
        exact h ▸ ⟨c2.1, c2.2, c1⟩
  · intro x fl hrep h
    unfold FuelLevel.with_millilitres at h
    by_cases c1 : flt x (.fin 0) = true
    · simp [c1] at h
    · simp only [Bool.not_eq_true] at c1
      by_cases c2 : (x.isNan || x.isInf) = true
      · simp [c1, c2] at h
      · simp only [Bool.not_eq_true, Bool.or_eq_false_iff] at c2
        simp [c1, c2.1, c2.2] at h
        cases x with
        | nan => exact absurd c2.1 (by simp [F64.isNan])
        | posInf => exact absurd c2.2 (by simp [F64.isInf])
        | negInf => exact absurd c2.2 (by simp [F64.isInf])
        | negZero =>
          have : fdiv F64.negZero (.fin 1000) = F64.negZero := by
            with_unfolding_all decide
          rw [this] at h
          exact h ▸ (by decide)
        | fin q =>
          have hq : 0 ≤ q := by
            by_contra hc
            push_neg at hc
            rw [(flt_finite_iff (.fin q) (.fin 0) rfl rfl).mpr
              (by simpa [F64.ratVal] using hc)] at c1
            exact Bool.noConfusion c1
          have hrep2 : |q| ≤ maxFin := by
            have := hrep
            simp [F64.isRepr] at this
            exact this
          rw [fdiv_thousand_eval q hq hrep2] at h
          refine h ▸ ⟨rfl, rfl, flt_fin_zero_false _ (by positivity)⟩

/-- Witness for C9 at the inputs 1.0 litres and 500.0 millilitres. -/
theorem construction_paths_invariant_witness :
    FuelLevelInv FuelLevel.zero ∧
    FuelLevelInv ⟨.fin 1⟩ ∧ FuelLevelInv ⟨.fin (500 / 1000)⟩ :=
  ⟨construction_paths_invariant.1,
   construction_paths_invariant.2.1 (.fin 1) ⟨.fin 1⟩ (by decide),
   construction_paths_invariant.2.2 (.fin 500) ⟨.fin (500 / 1000)⟩
     (by norm_num [F64.isRepr, maxFin])
     (by with_unfolding_all decide)⟩

/-- Claim C8: for any two levels satisfying the construction invariant,
exactly one of the Rust comparisons a < b, a == b, a > b holds, each agrees
with comparing the underlying rational magnitudes, and the manual Ord impl
returns exactly the magnitude comparison. -/
theorem ordering_trichotomy (a b : FuelLevel)
    (ha : FuelLevelInv a) (hb : FuelLevelInv b) :
    ((a.ltRust b = true ∧ a.eqRust b = false ∧ a.gtRust b = false) ∨
     (a.ltRust b = false ∧ a.eqRust b = true ∧ a.gtRust b = false) ∨
     (a.ltRust b = false ∧ a.eqRust b = false ∧ a.gtRust b = true)) ∧
    (a.ltRust b = true ↔ a.level_litres.ratVal < b.level_litres.ratVal) ∧
    (a.eqRust b = true ↔ a.level_litres.ratVal = b.level_litres.ratVal) ∧
    (a.gtRust b = true ↔ b.level_litres.ratVal < a.level_litres.ratVal) ∧
    FuelLevel.cmp a b = compare a.level_litres.ratVal b.level_litres.ratVal := by
  have haf := inv_finite a ha
  have hbf := inv_finite b hb
  have hltc : a.ltRust b = true ↔ a.level_litres.ratVal < b.level_litres.ratVal :=
    flt_finite_iff _ _ haf hbf
  have heqc : a.eqRust b = true ↔ a.level_litres.ratVal = b.level_litres.ratVal :=
    feq_finite_iff _ _ haf hbf
  have hgtc : a.gtRust b = true ↔ b.level_litres.ratVal < a.level_litres.ratVal :=
    fgt_finite_iff _ _ haf hbf
  refine ⟨?_, hltc, heqc, hgtc, ?_⟩
  · rcases lt_trichotomy a.level_litres.ratVal b.level_litres.ratVal with h | h | h
    · exact Or.inl ⟨hltc.mpr h,
        Bool.eq_false_iff.mpr fun hc => absurd (heqc.mp hc) (ne_of_lt h),
        Bool.eq_false_iff.mpr fun hc => absurd (hgtc.mp hc) (not_lt.mpr (le_of_lt h))⟩
    · exact Or.inr (Or.inl ⟨
        Bool.eq_false_iff.mpr fun hc => absurd (hltc.mp hc) (by rw [h]; exact lt_irrefl _),
        heqc.mpr h,
        Bool.eq_false_iff.mpr fun hc => absurd (hgtc.mp hc) (by rw [h]; exact lt_irrefl _)⟩)
    · exact Or.inr (Or.inr ⟨
        Bool.eq_false_iff.mpr fun hc => absurd (hltc.mp hc) (not_lt.mpr (le_of_lt h)),
        Bool.eq_false_iff.mpr fun hc => absurd (heqc.mp hc) (ne_of_gt h),
        hgtc.mpr h⟩)
  · unfold FuelLevel.cmp
    rcases lt_trichotomy a.level_litres.ratVal b.level_litres.ratVal with h | h | h
    · rw [if_pos ((flt_finite_iff _ _ haf hbf).mpr h)]
      exact (compare_lt_iff_lt.mpr h).symm
    · rw [if_neg ?_, if_neg ?_]
      · exact (compare_eq_iff_eq.mpr h).symm
      · intro hc
        exact absurd ((fgt_finite_iff _ _ haf hbf).mp hc) (by rw [h]; exact lt_irrefl _)
      · intro hc
        exact absurd ((flt_finite_iff _ _ haf hbf).mp hc) (by rw [h]; exact lt_irrefl _)
    · rw [if_neg ?_, if_pos ((fgt_finite_iff _ _ haf hbf).mpr h)]
      · exact (compare_gt_iff_gt.mpr h).symm
      · intro hc
        exact absurd ((flt_finite_iff _ _ haf hbf).mp hc) (not_lt.mpr (le_of_lt h))

/-- Witness for C8 at the levels 0.0 and 1.0 litres. -/
theorem ordering_trichotomy_witness :
    ((FuelLevel.zero.ltRust ⟨.fin 1⟩ = true ∧ FuelLevel.zero.eqRust ⟨.fin 1⟩ = false ∧
      FuelLevel.zero.gtRust ⟨.fin 1⟩ = false) ∨
     (FuelLevel.zero.ltRust ⟨.fin 1⟩ = false ∧ FuelLevel.zero.eqRust ⟨.fin 1⟩ = true ∧
      FuelLevel.zero.gtRust ⟨.fin 1⟩ = false) ∨
     (FuelLevel.zero.ltRust ⟨.fin 1⟩ = false ∧ FuelLevel.zero.eqRust ⟨.fin 1⟩ = false ∧
      FuelLevel.zero.gtRust ⟨.fin 1⟩ = true)) ∧
    (FuelLevel.zero.ltRust ⟨.fin 1⟩ = true ↔
      FuelLevel.zero.level_litres.ratVal < (F64.fin 1).ratVal) ∧
    (FuelLevel.zero.eqRust ⟨.fin 1⟩ = true ↔
      FuelLevel.zero.level_litres.ratVal = (F64.fin 1).ratVal) ∧
    (FuelLevel.zero.gtRust ⟨.fin 1⟩ = true ↔
      (F64.fin 1).ratVal < FuelLevel.zero.level_litres.ratVal) ∧
    FuelLevel.cmp FuelLevel.zero ⟨.fin 1⟩ =
      compare FuelLevel.zero.level_litres.ratVal (F64.fin 1).ratVal :=
  ordering_trichotomy FuelLevel.zero ⟨.fin 1⟩ (by decide) (by decide)

/-- Claim C2 counterexample: two readings of the largest finite double are
validated by with_litres, yet their running sum overflows to infinity inside
mean(), whose inner with_litres call then aborts (mean = none in the model).
The concrete Rust input is two insertions of 1.7976931348623157e308 litres. -/
theorem mean_overflow_abort :
    FuelLevelInv ⟨.fin maxFin⟩ ∧
    FuelLevel.with_litres (.fin maxFin) = some ⟨.fin maxFin⟩ ∧
    ((FuelMonitor.new.insert ⟨.fin maxFin⟩).insert ⟨.fin maxFin⟩).mean = none := by
  refine ⟨by decide, by decide, by with_unfolding_all decide⟩

/-- States of the running total in mean(): positive infinity after an
overflow, or negative zero, or a finite non-negative magnitude strictly below
the overflow threshold. -/
def SumGood (t : F64) : Prop :=
  t = .posInf ∨ t = .negZero ∨ ∃ q : ℚ, t = .fin q ∧ 0 ≤ q ∧ q < ovfT

/-- Packaging a non-negative magnitude with positive sign always lands in a
SumGood state. -/
theorem roundFin_nonneg_good (q : ℚ) (hq : 0 ≤ q) : SumGood (roundFin q false) := by
  have hovp : (0 : ℚ) < ovfT := by decide
  by_cases h0 : q = 0
  · subst h0
    right; right
    exact ⟨0, by norm_num [roundFin], le_refl 0, hovp⟩
  · by_cases hov : ovfT ≤ q
    · left
      unfold roundFin
      rw [if_neg h0, if_pos hov]
    · right; right
      exact ⟨q, roundFin_eq_fin q false h0 (not_le.mp hov) (by linarith), hq,
        not_le.mp hov⟩

/-- One step of the accumulation loop in mean() preserves SumGood when the
added entry satisfies the construction invariant. -/
theorem sumGood_step (t : F64) (fl : FuelLevel)
    (hg : SumGood t) (hfl : FuelLevelInv fl) : SumGood (fadd t fl.as_litres) := by
  unfold FuelLevel.as_litres
  rcases inv_dichotomy fl hfl with hx | ⟨q, hx, hq⟩ <;> rw [hx] <;>
    rcases hg with ht | ht | ⟨p, ht, hp0, hpt⟩ <;> subst ht
  · left; rfl
  · have : fadd F64.negZero F64.negZero = F64.negZero := by with_unfolding_all decide
    rw [this]
    right; left; rfl
  · show SumGood (roundFin (p + 0) (decide (p < 0) && true))
    rw [add_zero, decide_eq_false (not_lt.mpr hp0), Bool.false_and]
    exact roundFin_nonneg_good p hp0
  · left; rfl
  · show SumGood (roundFin (0 + q) (true && decide (q < 0)))
    rw [zero_add, decide_eq_false (not_lt.mpr hq), Bool.true_and]
    exact roundFin_nonneg_good q hq
  · rw [fadd_fin_fin, decide_eq_false (not_lt.mpr hp0), Bool.false_and]
    exact roundFin_nonneg_good (p + q) (add_nonneg hp0 hq)

/-- The accumulation loop keeps SumGood along any list of invariant-satisfying
entries. -/
theorem foldl_sumGood (ls : List FuelLevel) :
    ∀ t : F64, (∀ fl ∈ ls, FuelLevelInv fl) → SumGood t →
      SumGood (ls.foldl (fun t l => fadd t l.as_litres) t) := by
  induction ls with
  | nil => intro t _ ht; exact ht
  | cons a as ih =>
    intro t h ht
    simp only [List.foldl_cons]
    exact ih _ (fun fl hfl => h fl (List.mem_cons_of_mem a hfl))
      (sumGood_step t a ht (h a (List.mem_cons_self a as)))

/-- The running total of mean() over invariant-satisfying entries is SumGood. -/
theorem sumLitres_good (ls : List FuelLevel) (h : ∀ fl ∈ ls, FuelLevelInv fl) :
    SumGood (sumLitres ls) :=
  foldl_sumGood ls (.fin 0) h (Or.inr (Or.inr ⟨0, rfl, le_refl 0, by decide⟩))

/-- Dividing negative zero by a positive finite magnitude gives negative
zero. -/
theorem fdiv_negZero_pos (b : ℚ) (hb : 0 < b) :
    fdiv .negZero (.fin b) = .negZero := by
  have h1 : decide (b < 0) = false := decide_eq_false (not_lt.mpr (le_of_lt hb))
  have h2 : decide (b = 0) = false := decide_eq_false (ne_of_gt hb)
  simp [fdiv, F64.isNan, F64.isInf, F64.isZero, F64.isNegSign, F64.ratVal,
    h1, h2, roundFin, ne_of_gt hb]

/-- Successful evaluation of with_litres on a well-formed argument. -/
theorem with_litres_eval (x : F64) (hnan : x.isNan = false)
    (hinf : x.isInf = false) (hnn : flt x (.fin 0) = false) :
    FuelLevel.with_litres x = some ⟨x⟩ := by
  unfold FuelLevel.with_litres
  rw [hnn, hnan, hinf]
  simp

/-- Claim C2 (amended): for a monitor whose entries all satisfy the
construction invariant and whose running litre total stays finite (does not
overflow to infinity), mean() never reaches the aborting branch of its inner
with_litres call.  Without the finiteness hypothesis this fails, as the
overflow counterexample shows. -/
theorem mean_no_abort_of_finite_sum (m : FuelMonitor)
    (hinv : ∀ fl ∈ m.levels, FuelLevelInv fl)
    (hfin : (sumLitres m.levels).isFinite = true) :
    m.mean ≠ none := by
  by_cases hlen : m.levels.length = 0
  · unfold FuelMonitor.mean
    rw [if_pos hlen]
    simp
  · have hlpos : 0 < m.levels.length := Nat.pos_of_ne_zero hlen
    have hlq : (0 : ℚ) < (m.levels.length : ℚ) := by exact_mod_cast hlpos
    have hl1 : (1 : ℚ) ≤ (m.levels.length : ℚ) := by exact_mod_cast hlpos
    have hgood := sumLitres_good m.levels hinv
    have hd : ∃ d : F64, d.isNan = false ∧ d.isInf = false ∧
        flt d (.fin 0) = false ∧
        fdiv (sumLitres m.levels) (.fin (m.levels.length : ℚ)) = d := by
      rcases hgood with ht | ht | ⟨p, ht, hp0, hpt⟩
      · rw [ht] at hfin
        exact absurd hfin (by simp [F64.isFinite])
      · rw [ht]
        exact ⟨.negZero, rfl, rfl, by decide, fdiv_negZero_pos _ hlq⟩
      · rw [ht]
        have hdp : 0 ≤ p / (m.levels.length : ℚ) := by positivity
        refine ⟨.fin (p / (m.levels.length : ℚ)), rfl, rfl,
          flt_fin_zero_false _ hdp, ?_⟩
        rw [fdiv_fin_fin _ _ (ne_of_gt hlq),
          decide_eq_false (not_lt.mpr hp0), decide_eq_false (not_lt.mpr (le_of_lt hlq))]
        by_cases h0 : p / (m.levels.length : ℚ) = 0
        · rw [h0]
          norm_num [roundFin]
        · have hle : p / (m.levels.length : ℚ) ≤ p := div_le_self hp0 hl1
          have hovp : (0:ℚ) < ovfT := by decide
          exact roundFin_eq_fin _ _ h0 (lt_of_le_of_lt hle hpt) (by linarith)
    obtain ⟨d, hdn, hdi, hdz, hdeq⟩ := hd
    unfold FuelMonitor.mean
    rw [if_neg hlen, hdeq, with_litres_eval d hdn hdi hdz]
    simp

/-- Witness for C2 (amended): a monitor holding 1.0, 2.0 and 3.0 litres has
invariant entries and a finite running total, so its mean does not abort. -/
theorem mean_no_abort_of_finite_sum_witness :
    (((FuelMonitor.new.insert ⟨.fin 1⟩).insert ⟨.fin 2⟩).insert ⟨.fin 3⟩).mean ≠
      none :=
  mean_no_abort_of_finite_sum
    (((FuelMonitor.new.insert ⟨.fin 1⟩).insert ⟨.fin 2⟩).insert ⟨.fin 3⟩)
    (by decide) (by with_unfolding_all decide)
